import Mathlib

/-!
Verification development for the kiroku symptom-log application (src/app.py).

The embedding models, faithfully to the Python source:
  * the JSON serialization used for the `stiffness` column
    (`json.dumps` with default separators, `json.loads` on read),
  * Python's `int()` coercion applied to decoded strength values,
  * date parsing (`datetime.strptime` with format `%Y-%m-%d`),
  * the fixed local time zone (`Asia/Tokyo`, a constant +09:00 offset for
    every timestamp after September 1951; all dates handled by the app are
    modern, and the theorems that touch user-supplied dates carry an
    explicit year bound),
  * the record store (a list of rows; SQL filters become list filters,
    `ORDER BY` becomes a sort) and the three routes `index`, `delete_record`
    and `report`.

Timestamps are integers counting seconds since the Unix epoch, in UTC,
mirroring the naive-UTC `created_at` column.  The JSON parser covers the
grammar `json.loads` accepts (objects, arrays, strings with the standard
escapes, integers, floats, `true`/`false`/`null`, and the non-strict
`NaN`/`Infinity` literals); floats are kept as their value truncated toward
zero, which is the only use the program makes of them (`int()`).
-/

/-- Decimal digits of a character list, most significant first. -/
def natOfDigits (ds : List Char) : Nat :=
  ds.foldl (fun a c => a * 10 + (c.toNat - 48)) 0

/-- Take the longest prefix of decimal digits. -/
def takeDigits : List Char → List Char × List Char
  | [] => ([], [])
  | c :: cs =>
    if c.isDigit then
      let p := takeDigits cs
      (c :: p.1, p.2)
    else ([], c :: cs)

/-- JSON values as `json.loads` produces them.  `jfloat` keeps only the
float's value truncated toward zero, the single fact the program ever uses
about a float (`int(x)`); `special` holds the non-strict literals
`NaN` / `Infinity` / `-Infinity`. -/
inductive Json where
  | null
  | bool (b : Bool)
  | jint (n : Int)
  | jfloat (trunc : Int)
  | str (s : String)
  | arr (xs : List Json)
  | obj (kvs : List (String × Json))
  | special (s : String)

/-- Hexadecimal digit character for values below 16. -/
def hexDigitChar (n : Nat) : Char :=
  if n < 10 then Char.ofNat (48 + n) else Char.ofNat (87 + n)

/-- Escape one character the way `json.dumps` does (with `ensure_ascii=False`
only characters below 0x20 and the quote and backslash are escaped),
prepending to `rest`. -/
def escapeCharR (c : Char) (rest : List Char) : List Char :=
  if c = '"' then '\\' :: '"' :: rest
  else if c = '\\' then '\\' :: '\\' :: rest
  else if c = '\n' then '\\' :: 'n' :: rest
  else if c = '\t' then '\\' :: 't' :: rest
  else if c = '\r' then '\\' :: 'r' :: rest
  else if c = '\x08' then '\\' :: 'b' :: rest
  else if c = '\x0c' then '\\' :: 'f' :: rest
  else if c.toNat < 32 then
    '\\' :: 'u' :: '0' :: '0' :: hexDigitChar (c.toNat / 16) :: hexDigitChar (c.toNat % 16) :: rest
  else c :: rest

/-- Escape a character list, appending `rest`. -/
def escapeR : List Char → List Char → List Char
  | [], rest => rest
  | c :: cs, rest => escapeCharR c (escapeR cs rest)

/-- Serialized JSON string literal, appending `rest`. -/
def dumpStrR (s : String) (rest : List Char) : List Char :=
  '"' :: escapeR s.data ('"' :: rest)

mutual

/-- Characters of `json.dumps(v)` (default separators `", "` and `": "`,
`ensure_ascii=False`), written in accumulator style: the serialized value is
prepended to `rest`.  The float branch prints the truncated value our model
keeps; the program never serializes floats. -/
def dumpsValR : Json → List Char → List Char
  | Json.null, rest => 'n' :: 'u' :: 'l' :: 'l' :: rest
  | Json.bool true, rest => 't' :: 'r' :: 'u' :: 'e' :: rest
  | Json.bool false, rest => 'f' :: 'a' :: 'l' :: 's' :: 'e' :: rest
  | Json.jint n, rest => (toString n).data ++ rest
  | Json.jfloat t, rest => (toString t).data ++ '.' :: '0' :: rest
  | Json.special s, rest => s.data ++ rest
  | Json.str s, rest => dumpStrR s rest
  | Json.arr [], rest => '[' :: ']' :: rest
  | Json.arr (v :: vs), rest => '[' :: dumpsValR v (dumpArrTailR vs (']' :: rest))
  | Json.obj [], rest => '\x7b' :: '\x7d' :: rest
  | Json.obj ((k, v) :: kvs), rest =>
    '\x7b' :: dumpStrR k (':' :: ' ' :: dumpsValR v (dumpObjTailR kvs ('\x7d' :: rest)))

/-- Remaining array elements, each preceded by `", "`. -/
def dumpArrTailR : List Json → List Char → List Char
  | [], rest => rest
  | v :: vs, rest => ',' :: ' ' :: dumpsValR v (dumpArrTailR vs rest)

/-- Remaining object members, each preceded by `", "`. -/
def dumpObjTailR : List (String × Json) → List Char → List Char
  | [], rest => rest
  | (k, v) :: kvs, rest => ',' :: ' ' :: dumpStrR k (':' :: ' ' :: dumpsValR v (dumpObjTailR kvs rest))

end

/-- Whole-string serialization, the model of `json.dumps`. -/
def dumps (v : Json) : String :=
  String.mk (dumpsValR v [])

/-- Skip JSON whitespace. -/
def pskipWs : List Char → List Char
  | [] => []
  | c :: cs => if c = ' ' ∨ c = '\t' ∨ c = '\n' ∨ c = '\r' then pskipWs cs else c :: cs

/-- Value of a single-character escape (`\u` is handled separately). -/
def escChar (e : Char) : Option Char :=
  if e = 'n' then some '\n'
  else if e = 't' then some '\t'
  else if e = 'r' then some '\r'
  else if e = '"' then some '"'
  else if e = '\\' then some '\\'
  else if e = '/' then some '/'
  else if e = 'b' then some '\x08'
  else if e = 'f' then some '\x0c'
  else none

/-- Hexadecimal value of a character. -/
def hexVal (c : Char) : Option Nat :=
  if '0' ≤ c ∧ c ≤ '9' then some (c.toNat - 48)
  else if 'a' ≤ c ∧ c ≤ 'f' then some (c.toNat - 87)
  else if 'A' ≤ c ∧ c ≤ 'F' then some (c.toNat - 55)
  else none

/-- Parse the body of a JSON string literal (the opening quote already
consumed), returning the content characters and the remainder after the
closing quote. -/
def parseStrBody : List Char → Option (List Char × List Char)
  | [] => none
  | c :: cs =>
    if c = '"' then some ([], cs)
    else if c = '\\' then
      match cs with
      | 'u' :: h1 :: h2 :: h3 :: h4 :: cs2 =>
        match hexVal h1, hexVal h2, hexVal h3, hexVal h4 with
        | some a, some b, some d, some e =>
          (parseStrBody cs2).map (fun p => (Char.ofNat (((a * 16 + b) * 16 + d) * 16 + e) :: p.1, p.2))
        | _, _, _, _ => none
      | e :: cs2 =>
        match escChar e with
        | some c2 => (parseStrBody cs2).map (fun p => (c2 :: p.1, p.2))
        | none => none
      | [] => none
    else (parseStrBody cs).map (fun p => (c :: p.1, p.2))

/-- Signed magnitude as an integer. -/
def intOfParts (neg : Bool) (ds : List Char) : Int :=
  if neg then -(natOfDigits ds : Int) else (natOfDigits ds : Int)

/-- Exact truncation toward zero of the decimal `±ip.fr × 10^ex`. -/
def truncOfParts (neg : Bool) (ip fr : List Char) (ex : Int) : Int :=
  let allD := natOfDigits (ip ++ fr)
  let s : Int := fr.length
  let mag : Nat := if s ≤ ex then allD * 10 ^ (ex - s).toNat else allD / 10 ^ (s - ex).toNat
  if neg then -(mag : Int) else (mag : Int)

/-- Parse an exponent part after the `e`/`E` marker. -/
def parseExpAfter (cs : List Char) : Option (Int × List Char) :=
  let p : Bool × List Char :=
    match cs with
    | '-' :: t => (true, t)
    | '+' :: t => (false, t)
    | _ => (false, cs)
  let q := takeDigits p.2
  if q.1 = [] then none
  else some (if p.1 then -(natOfDigits q.1 : Int) else (natOfDigits q.1 : Int), q.2)

/-- Parse a JSON number (or the non-strict `Infinity` forms) starting at its
first character. -/
def parseNumberBody (cs : List Char) : Option (Json × List Char) :=
  let p : Bool × List Char :=
    match cs with
    | '-' :: t => (true, t)
    | _ => (false, cs)
  match p.2 with
  | 'I' :: 'n' :: 'f' :: 'i' :: 'n' :: 'i' :: 't' :: 'y' :: r =>
    some (Json.special (if p.1 then "-Infinity" else "Infinity"), r)
  | _ =>
    let q := takeDigits p.2
    if q.1 = [] then none
    else
      match q.2 with
      | '.' :: cs3 =>
        let f := takeDigits cs3
        if f.1 = [] then none
        else
          match f.2 with
          | c5 :: cs5 =>
            if c5 = 'e' ∨ c5 = 'E' then
              match parseExpAfter cs5 with
              | some (ex, cs6) => some (Json.jfloat (truncOfParts p.1 q.1 f.1 ex), cs6)
              | none => none
            else some (Json.jfloat (truncOfParts p.1 q.1 f.1 0), c5 :: cs5)
          | [] => some (Json.jfloat (truncOfParts p.1 q.1 f.1 0), [])
      | c3 :: cs3 =>
        if c3 = 'e' ∨ c3 = 'E' then
          match parseExpAfter cs3 with
          | some (ex, cs4) => some (Json.jfloat (truncOfParts p.1 q.1 [] ex), cs4)
          | none => none
        else some (Json.jint (intOfParts p.1 q.1), c3 :: cs3)
      | [] => some (Json.jint (intOfParts p.1 q.1), [])

mutual

/-- Parse one JSON value; fuel bounds the recursion depth (any fuel larger
than the input length is enough, and `parseJson` supplies that). -/
def parseVal : Nat → List Char → Option (Json × List Char)
  | 0, _ => none
  | Nat.succ fuel, cs0 =>
    match pskipWs cs0 with
    | [] => none
    | c :: cs =>
      if c = '"' then (parseStrBody cs).map (fun p => (Json.str (String.mk p.1), p.2))
      else if c = '[' then
        match pskipWs cs with
        | ']' :: cs2 => some (Json.arr [], cs2)
        | _ => (parseElems fuel cs).map (fun p => (Json.arr p.1, p.2))
      else if c = '\x7b' then
        match pskipWs cs with
        | '\x7d' :: cs2 => some (Json.obj [], cs2)
        | _ => (parseMembers fuel cs).map (fun p => (Json.obj p.1, p.2))
      else if c = 'n' then
        match cs with
        | 'u' :: 'l' :: 'l' :: cs2 => some (Json.null, cs2)
        | _ => none
      else if c = 't' then
        match cs with
        | 'r' :: 'u' :: 'e' :: cs2 => some (Json.bool true, cs2)
        | _ => none
      else if c = 'f' then
        match cs with
        | 'a' :: 'l' :: 's' :: 'e' :: cs2 => some (Json.bool false, cs2)
        | _ => none
      else if c = 'N' then
        match cs with
        | 'a' :: 'N' :: cs2 => some (Json.special "NaN", cs2)
        | _ => none
      else parseNumberBody (c :: cs)

/-- Parse the elements of a non-empty array, positioned after `[`. -/
def parseElems : Nat → List Char → Option (List Json × List Char)
  | 0, _ => none
  | Nat.succ fuel, cs =>
    match parseVal fuel cs with
    | some (v, r1) =>
      (match pskipWs r1 with
       | c2 :: r2 =>
         if c2 = ',' then
           match parseElems fuel r2 with
           | some (vs, r3) => some (v :: vs, r3)
           | none => none
         else if c2 = ']' then some ([v], r2)
         else none
       | [] => none)
    | none => none

/-- Parse the members of a non-empty object, positioned after the opening
brace. -/
def parseMembers : Nat → List Char → Option (List (String × Json) × List Char)
  | 0, _ => none
  | Nat.succ fuel, cs =>
    match pskipWs cs with
    | c :: cs1 =>
      if c = '"' then
        match parseStrBody cs1 with
        | some (k, r1) =>
          (match pskipWs r1 with
           | c2 :: r2 =>
             if c2 = ':' then
               match parseVal fuel r2 with
               | some (v, r3) =>
                 (match pskipWs r3 with
                  | c4 :: r4 =>
                    if c4 = ',' then
                      match parseMembers fuel r4 with
                      | some (kvs, r5) => some ((String.mk k, v) :: kvs, r5)
                      | none => none
                    else if c4 = '\x7d' then some ([(String.mk k, v)], r4)
                    else none
                  | [] => none)
               | none => none
             else none
           | [] => none)
        | none => none
      else none
    | [] => none

end

/-- Model of `json.loads`: parse a complete JSON document, `none` meaning
`json.JSONDecodeError`. -/
def parseJson (s : String) : Option Json :=
  match parseVal (s.data.length + 1) s.data with
  | some (v, rest) => if pskipWs rest = [] then some v else none
  | none => none

/-- Model of `dict.get(k, default)` on a decoded JSON object: later duplicate
keys override earlier ones, as in a Python dict built by `json.loads`. -/
def dictGetD : List (String × Json) → String → Json → Json
  | [], _, d => d
  | kv :: rest, k, d => dictGetD rest k (if kv.1 = k then kv.2 else d)

/-- Model of using a decoded value as a dict (`.get` attribute access): any
non-object raises `AttributeError`. -/
def asDict : Json → Except String (List (String × Json))
  | Json.obj kvs => Except.ok kvs
  | _ => Except.error "AttributeError"

/-- Whitespace stripped from both ends, as `int(str)` does before parsing. -/
def pyStrip (cs : List Char) : List Char :=
  let ws : Char → Bool := fun c =>
    c = ' ' || c = '\t' || c = '\n' || c = '\r' || c = '\x0b' || c = '\x0c'
  ((cs.dropWhile ws).reverse.dropWhile ws).reverse

/-- Model of Python `int(s)` on a string: optional surrounding whitespace,
optional sign, then decimal digits; anything else is a `ValueError`
(underscore separators and non-ASCII digits are not modelled). -/
def pyIntOfStr (s : String) : Option Int :=
  let cs := pyStrip s.data
  let p : Bool × List Char :=
    match cs with
    | '-' :: t => (true, t)
    | '+' :: t => (false, t)
    | _ => (false, cs)
  let q := takeDigits p.2
  if q.1 = [] ∨ q.2 ≠ [] then none
  else some (if p.1 then -(natOfDigits q.1 : Int) else (natOfDigits q.1 : Int))

/-- Model of Python `int(x)` on a decoded JSON value: ints pass through,
floats truncate toward zero, booleans coerce, numeric strings parse, and
everything else raises (`ValueError` / `TypeError` / `OverflowError`). -/
def pyInt : Json → Except String Int
  | Json.jint n => Except.ok n
  | Json.jfloat t => Except.ok t
  | Json.bool b => Except.ok (if b then 1 else 0)
  | Json.str s =>
    match pyIntOfStr s with
    | some n => Except.ok n
    | none => Except.error "ValueError"
  | Json.special _ => Except.error "ValueError"
  | Json.null => Except.error "TypeError"
  | Json.arr _ => Except.error "TypeError"
  | Json.obj _ => Except.error "TypeError"

/-- The fixed finger taxonomy `STIFFNESS_FINGER_PARTS` from the source. -/
def STIFFNESS_FINGER_PARTS : List (String × List (String × String)) :=
  [("R", [("R_Thumb", "親指"), ("R_Index", "人差し指"), ("R_Middle", "中指"),
          ("R_Ring", "薬指"), ("R_Pinky", "小指")]),
   ("L", [("L_Thumb", "親指"), ("L_Index", "人差し指"), ("L_Middle", "中指"),
          ("L_Ring", "薬指"), ("L_Pinky", "小指")])]

/-- Identifiers of the taxonomy, the valid stiffness part tokens. -/
def stiffnessPartIds : List String :=
  ((STIFFNESS_FINGER_PARTS.map Prod.snd).flatten).map Prod.fst

/-- The `stiffness_data` dict the index POST handler builds: selected part
tokens plus the four fixed region strengths, each a form string. -/
def stiffJson (parts : List String) (rh lh rk lk : String) : Json :=
  Json.obj [("parts", Json.arr (parts.map Json.str)),
            ("strength", Json.obj [("R_Hand", Json.str rh), ("L_Hand", Json.str lh),
                                   ("R_Knee", Json.str rk), ("L_Knee", Json.str lk)])]

/-- Stored `stiffness` column text: `json.dumps(stiffness_data)`. -/
def encodeStiffness (parts : List String) (rh lh rk lk : String) : String :=
  dumps (stiffJson parts rh lh rk lk)

/-- The empty default substituted when decoding fails. -/
def defaultStiffness : Json :=
  Json.obj [("parts", Json.arr []), ("strength", Json.obj [])]

/-- The index route's per-record decode: `json.loads` with
`json.JSONDecodeError` replaced by the empty default. -/
def decodeIndex (text : String) : Json :=
  (parseJson text).getD defaultStiffness

/-- One iteration of the report's stiffness loop for a stored text: on
`JSONDecodeError` all four series get 0; otherwise the four region strengths
are read with `.get(key, 0)` and coerced with `int`, and any failure there
(`AttributeError`, `ValueError`, ...) propagates as an exception. -/
def stiffRow (text : String) : Except String (Int × Int × Int × Int) :=
  match parseJson text with
  | none => Except.ok (0, 0, 0, 0)
  | some j => do
    let kvs ← asDict j
    let sm ← asDict (dictGetD kvs "strength" (Json.obj []))
    let rh ← pyInt (dictGetD sm "R_Hand" (Json.jint 0))
    let lh ← pyInt (dictGetD sm "L_Hand" (Json.jint 0))
    let rk ← pyInt (dictGetD sm "R_Knee" (Json.jint 0))
    let lk ← pyInt (dictGetD sm "L_Knee" (Json.jint 0))
    Except.ok (rh, lh, rk, lk)

/-- Calendar date. -/
structure Date where
  y : Nat
  m : Nat
  d : Nat
deriving DecidableEq, Repr

/-- Gregorian leap-year rule. -/
def isLeapYear (y : Nat) : Bool :=
  (y % 4 == 0 && y % 100 != 0) || y % 400 == 0

/-- Length of a month. -/
def daysInMonth (y m : Nat) : Nat :=
  if m = 2 then (if isLeapYear y then 29 else 28)
  else if m = 4 ∨ m = 6 ∨ m = 9 ∨ m = 11 then 30
  else 31

/-- Split a character list on the dash separator. -/
def splitDash : List Char → List (List Char)
  | [] => [[]]
  | c :: cs =>
    let r := splitDash cs
    if c = '-' then [] :: r
    else
      match r with
      | h :: t => (c :: h) :: t
      | [] => [[c]]

/-- Model of `datetime.strptime(s, "%Y-%m-%d").date()`: a four-digit year,
one- or two-digit month and day, all ranges validated (including leap
years); `none` is `ValueError`. -/
def parseYMD (s : String) : Option Date :=
  match splitDash s.data with
  | [ys, ms, ds] =>
    if ys.length == 4 && ys.all Char.isDigit &&
       decide (1 ≤ ms.length) && decide (ms.length ≤ 2) && ms.all Char.isDigit &&
       decide (1 ≤ ds.length) && decide (ds.length ≤ 2) && ds.all Char.isDigit then
      let y := natOfDigits ys
      let m := natOfDigits ms
      let d := natOfDigits ds
      if 1 ≤ y ∧ 1 ≤ m ∧ m ≤ 12 ∧ 1 ≤ d ∧ d ≤ daysInMonth y m then some ⟨y, m, d⟩
      else none
    else none
  | _ => none

/-- Days from the Unix epoch to a civil date (proleptic Gregorian, valid for
years ≥ 1); Hinnant's `days_from_civil`. -/
def daysFromCivil (y m d : Nat) : Int :=
  let y2 : Nat := if m ≤ 2 then y - 1 else y
  let era : Nat := y2 / 400
  let yoe : Nat := y2 % 400
  let mp : Nat := (m + 9) % 12
  let doy : Nat := (153 * mp + 2) / 5 + d - 1
  let doe : Nat := yoe * 365 + yoe / 4 - yoe / 100 + doy
  (era * 146097 + doe : Int) - 719468

/-- Civil date from days since the Unix epoch; Hinnant's `civil_from_days`. -/
def civilFromDays (z0 : Int) : Int × Nat × Nat :=
  let z := z0 + 719468
  let era := z.fdiv 146097
  let doe := (z - era * 146097).toNat
  let yoe := (doe - doe / 1460 + doe / 36524 - doe / 146096) / 365
  let doy := doe - (365 * yoe + yoe / 4 - yoe / 100)
  let mp := (5 * doy + 2) / 153
  let d := doy - (153 * mp + 2) / 5 + 1
  let m := if mp < 10 then mp + 3 else mp - 9
  (era * 400 + yoe + (if m ≤ 2 then 1 else 0), m, d)

/-- The fixed local zone: `Asia/Tokyo` has been a constant +09:00 offset
since September 1951, with no daylight saving. -/
def jstOffsetSeconds : Int := 9 * 3600

/-- UTC instant (seconds since the epoch) of local midnight of a date:
`JST.localize(datetime(y, m, d)).astimezone(pytz.utc)`. -/
def startUtcOf (d : Date) : Int :=
  daysFromCivil d.y d.m d.d * 86400 - jstOffsetSeconds

/-- UTC instant of local 23:59:59 of a date (the parsed end date after
`.replace(hour=23, minute=59, second=59)`). -/
def endUtcOf (d : Date) : Int :=
  daysFromCivil d.y d.m d.d * 86400 + 86399 - jstOffsetSeconds

/-- Hour of the local (`Asia/Tokyo`) clock at a UTC instant. -/
def jstHour (t : Int) : Nat :=
  (((t + jstOffsetSeconds).emod 86400) / 3600).toNat

/-- Minute of the local clock at a UTC instant. -/
def jstMinute (t : Int) : Nat :=
  ((((t + jstOffsetSeconds).emod 86400).emod 3600) / 60).toNat

/-- One row of the `record` table.  `created_at` is seconds since the Unix
epoch, UTC, as the naive-UTC `DateTime` column stores it. -/
structure Record where
  id : Nat
  date : Date
  created_at : Int
  numbness_strength : Int
  numbness_parts : String
  stiffness : String
  memo : String
  user_id : Nat
deriving DecidableEq, Repr

/-- Insert into a sorted list, keeping existing order among ties (stable,
like the database sort). -/
def insertSortedBy (le : α → α → Bool) (a : α) : List α → List α
  | [] => [a]
  | b :: bs => if le a b then a :: b :: bs else b :: insertSortedBy le a bs

/-- Insertion sort, the model of `ORDER BY`. -/
def sortByB (le : α → α → Bool) : List α → List α
  | [] => []
  | a :: l => insertSortedBy le a (sortByB le l)

/-- Strict chronological order on dates. -/
def dateLt (a b : Date) : Prop :=
  a.y < b.y ∨ (a.y = b.y ∧ (a.m < b.m ∨ (a.m = b.m ∧ a.d < b.d)))

instance (a b : Date) : Decidable (dateLt a b) := by
  unfold dateLt; infer_instance

/-- Comparison realizing `ORDER BY date DESC, created_at DESC`: `a` comes no
later than `b` in the listing. -/
def indexOrderB (a b : Record) : Bool :=
  decide (dateLt b.date a.date ∨ (a.date = b.date ∧ b.created_at ≤ a.created_at))

/-- The index route's query:
`Record.query.filter_by(author=current_user).order_by(date desc, created_at desc)`. -/
def list_for_owner (db : List Record) (uid : Nat) : List Record :=
  sortByB indexOrderB (db.filter (fun r => r.user_id == uid))

/-- Ascending `created_at` comparison. -/
def createdLeB (a b : Record) : Bool :=
  decide (a.created_at ≤ b.created_at)

/-- The report's store query: records of the owner with `created_at` in the
inclusive window, ordered ascending by `created_at`. -/
def reportRecords (db : List Record) (uid : Nat) (sd ed : Date) : List Record :=
  sortByB createdLeB (db.filter
    (fun r => r.user_id == uid &&
      decide (startUtcOf sd ≤ r.created_at) && decide (r.created_at ≤ endUtcOf ed)))

/-- Outcome of the delete route. -/
inductive DelResult where
  | notFound
  | forbidden
  | deleted
deriving DecidableEq, Repr

/-- The `delete_record` route: primary-key lookup, 404 when absent, 403 when
owned by someone else (leaving the store untouched), otherwise the row is
removed and committed. -/
def delete_record (db : List Record) (uid rid : Nat) : DelResult × List Record :=
  match db.find? (fun r => r.id == rid) with
  | none => (DelResult.notFound, db)
  | some r =>
    if r.user_id ≠ uid then (DelResult.forbidden, db)
    else (DelResult.deleted, db.filter (fun q => ! (q.id == rid)))

/-- Model of `','.join(tokens)`. -/
def joinComma : List String → String
  | [] => ""
  | [s] => s
  | s :: rest => s ++ "," ++ joinComma rest

/-- The record the index POST handler constructs, given the fresh primary
key and the server-assigned `created_at = now (UTC)`. -/
def newRecord (rid : Nat) (now : Int) (d : Date) (ns : Int) (nparts : List String)
    (sparts : List String) (rh lh rk lk : String) (memo : String) (uid : Nat) : Record :=
  ⟨rid, d, now, ns, joinComma nparts, encodeStiffness sparts rh lh rk lk, memo, uid⟩

/-- Committing the new record: one row appended to the store. -/
def createRecord (db : List Record) (r : Record) : List Record :=
  db ++ [r]

/-- The index POST flow: the date string must parse or the request aborts
with a flashed message before touching the store. -/
def indexPost (db : List Record) (dateStr : String) (rid : Nat) (now : Int) (ns : Int)
    (nparts sparts : List String) (rh lh rk lk memo : String) (uid : Nat) :
    Except String (List Record) :=
  match parseYMD dateStr with
  | none => Except.error "date format"
  | some d => Except.ok (createRecord db (newRecord rid now d ns nparts sparts rh lh rk lk memo uid))

/-- Two-digit zero-padded decimal, as `strftime` prints months, days, hours
and minutes. -/
def pad2 (n : Nat) : String :=
  if n < 10 then "0" ++ toString n else toString n

/-- The chart label the report builds for a record: the month/day come from
the user-chosen `date` column (`record.date.strftime("%m/%d")`), the
hour:minute from `created_at` converted to the local zone. -/
def labelOf (r : Record) : String :=
  pad2 r.date.m ++ "/" ++ pad2 r.date.d ++ " " ++
    pad2 (jstHour r.created_at) ++ ":" ++ pad2 (jstMinute r.created_at)

/-- The stiffness loop over the selected records: four aligned series, or
the first uncaught exception. -/
def stiffLists : List Record → Except String (List Int × List Int × List Int × List Int)
  | [] => Except.ok ([], [], [], [])
  | r :: rest => do
    let row ← stiffRow r.stiffness
    let tails ← stiffLists rest
    Except.ok (row.1 :: tails.1, row.2.1 :: tails.2.1,
               row.2.2.1 :: tails.2.2.1, row.2.2.2 :: tails.2.2.2)

/-- The chart payload handed to the template, along with the selected
records themselves. -/
structure Chart where
  labels : List String
  numbness_data : List Int
  stiffness_r_hand_data : List Int
  stiffness_l_hand_data : List Int
  stiffness_r_knee_data : List Int
  stiffness_l_knee_data : List Int
  records : List Record
deriving DecidableEq, Repr

/-- How a report request can fail: a flashed warning for a missing range, a
flashed danger message for an unparseable date (both redirect before any
store query), or an uncaught exception from the stiffness loop. -/
inductive RepError where
  | missingRange
  | badFormat
  | serverError (msg : String)
deriving DecidableEq, Repr

/-- The report route.  Missing or empty bounds flash a warning; unparseable
dates flash a format error; both happen before the store is consulted.  The
bounds are local midnight and local 23:59:59 converted to UTC; the selected
records are reshaped into the label and data series, every array reversed
before display. -/
def report (db : List Record) (uid : Nat) (startStr endStr : Option String) :
    Except RepError Chart :=
  if startStr.getD "" = "" ∨ endStr.getD "" = "" then Except.error RepError.missingRange
  else
    match parseYMD (startStr.getD ""), parseYMD (endStr.getD "") with
    | some sd, some ed =>
      (match stiffLists (reportRecords db uid sd ed) with
       | Except.ok lists =>
         Except.ok ⟨((reportRecords db uid sd ed).map labelOf).reverse,
                    ((reportRecords db uid sd ed).map (fun r => r.numbness_strength)).reverse,
                    lists.1.reverse, lists.2.1.reverse,
                    lists.2.2.1.reverse, lists.2.2.2.reverse, reportRecords db uid sd ed⟩
       | Except.error e => Except.error (RepError.serverError e))
    | _, _ => Except.error RepError.badFormat

/-- Two records of one owner on 2024-06-01: local 09:00 JST (numbness 2) and
local 14:30 JST (numbness 5).  Epoch seconds: 2024-06-01 00:00 UTC is
1717200000. -/
def dbC1 : List Record :=
  [⟨1, ⟨2024, 6, 1⟩, 1717200000, 2, "", "", "", 10⟩,
   ⟨2, ⟨2024, 6, 1⟩, 1717219800, 5, "", "", "", 10⟩]

/-- The chart the report builds for `dbC1` over 2024-06-01 .. 2024-06-01. -/
def chartC1 : Chart :=
  ⟨["06/01 14:30", "06/01 09:00"], [5, 2], [0, 0], [0, 0], [0, 0], [0, 0], dbC1⟩

/-- A record whose user-chosen `date` (2024-06-02) differs from the local
calendar day of its submission instant (2024-06-01 09:00 JST). -/
def recC4 : Record :=
  ⟨1, ⟨2024, 6, 2⟩, 1717200000, 0, "", "", "", 7⟩

/-- Store holding just `recC4`. -/
def dbC4 : List Record :=
  [recC4]

/-- Stored stiffness text that is valid JSON but holds a region value that
`int()` cannot parse. -/
def badStiffText : String :=
  "\x7b\"parts\": [], \"strength\": \x7b\"R_Hand\": \"x\"\x7d\x7d"

/-- Store holding one record in range whose stiffness text is `badStiffText`. -/
def dbC3 : List Record :=
  [⟨1, ⟨2024, 6, 1⟩, 1717200000, 1, "", badStiffText, "", 3⟩]

/-- Store with two records of different owners, used for delete and frame
witnesses. -/
def dbDel : List Record :=
  [⟨1, ⟨2024, 6, 1⟩, 0, 0, "", "", "", 1⟩,
   ⟨2, ⟨2024, 6, 1⟩, 5, 0, "", "", "", 2⟩]

/-- Label as the specification words it: both the month/day part and the
hour:minute derived from `created_at` converted to the local zone.  This is
the refinement target to compare with `labelOf`, which takes month/day from
the user-chosen `date` column instead. -/
def specLabel (r : Record) : String :=
  let c := civilFromDays ((r.created_at + jstOffsetSeconds).fdiv 86400)
  pad2 c.2.1 ++ "/" ++ pad2 c.2.2 ++ " " ++
    pad2 (jstHour r.created_at) ++ ":" ++ pad2 (jstMinute r.created_at)

/-- A character a JSON string can hold verbatim: neither quote nor backslash
nor a control character, so `json.dumps` copies it unescaped. -/
def PlainChar (c : Char) : Prop :=
  c ≠ '"' ∧ c ≠ '\\' ∧ 32 ≤ c.toNat

instance (c : Char) : Decidable (PlainChar c) := by
  unfold PlainChar; infer_instance

/-- A string of plain characters. -/
def PlainStr (s : String) : Prop :=
  ∀ c ∈ s.data, PlainChar c

instance (s : String) : Decidable (PlainStr s) := by
  unfold PlainStr; infer_instance

theorem mem_insertSortedBy {α : Type} {le : α → α → Bool} {a b : α} {l : List α} :
    b ∈ insertSortedBy le a l ↔ b = a ∨ b ∈ l := by
  induction l with
  | nil => simp [insertSortedBy]
  | cons c cs ih =>
    simp only [insertSortedBy]
    split
    · simp only [List.mem_cons]
    · simp only [List.mem_cons, ih]
      tauto

theorem mem_sortByB {α : Type} {le : α → α → Bool} {b : α} {l : List α} :
    b ∈ sortByB le l ↔ b ∈ l := by
  induction l with
  | nil => simp [sortByB]
  | cons c cs ih => simp [sortByB, mem_insertSortedBy, ih]

theorem length_insertSortedBy {α : Type} (le : α → α → Bool) (a : α) (l : List α) :
    (insertSortedBy le a l).length = l.length + 1 := by
  induction l with
  | nil => simp [insertSortedBy]
  | cons c cs ih =>
    simp only [insertSortedBy]
    split
    · simp
    · simp [ih]

theorem length_sortByB {α : Type} (le : α → α → Bool) (l : List α) :
    (sortByB le l).length = l.length := by
  induction l with
  | nil => rfl
  | cons c cs ih => simp [sortByB, length_insertSortedBy, ih]

theorem pairwise_insertSortedBy {α : Type} {le : α → α → Bool}
    (tot : ∀ x y, le x y = true ∨ le y x = true)
    (tr : ∀ x y z, le x y = true → le y z = true → le x z = true)
    (a : α) (l : List α) (h : List.Pairwise (fun x y => le x y = true) l) :
    List.Pairwise (fun x y => le x y = true) (insertSortedBy le a l) := by
  induction l with
  | nil => simp [insertSortedBy]
  | cons c cs ih =>
    rw [List.pairwise_cons] at h
    obtain ⟨hc, hcs⟩ := h
    simp only [insertSortedBy]
    split
    next hle =>
      rw [List.pairwise_cons]
      refine ⟨fun y hy => ?_, ?_⟩
      · rcases List.mem_cons.mp hy with hya | hy2
        · rw [hya]; exact hle
        · exact tr a c y hle (hc y hy2)
      · rw [List.pairwise_cons]; exact ⟨hc, hcs⟩
    next hle =>
      rw [List.pairwise_cons]
      refine ⟨fun y hy => ?_, ih hcs⟩
      rcases mem_insertSortedBy.mp hy with hya | hy2
      · rcases tot a c with h1 | h1
        · exact absurd h1 hle
        · rw [hya]; exact h1
      · exact hc y hy2

theorem pairwise_sortByB {α : Type} {le : α → α → Bool}
    (tot : ∀ x y, le x y = true ∨ le y x = true)
    (tr : ∀ x y z, le x y = true → le y z = true → le x z = true)
    (l : List α) :
    List.Pairwise (fun x y => le x y = true) (sortByB le l) := by
  induction l with
  | nil => simp [sortByB]
  | cons c cs ih => exact pairwise_insertSortedBy tot tr c (sortByB le cs) ih

theorem createdLeB_total (x y : Record) : createdLeB x y = true ∨ createdLeB y x = true := by
  simp only [createdLeB, decide_eq_true_eq]
  omega

theorem createdLeB_trans (x y z : Record) :
    createdLeB x y = true → createdLeB y z = true → createdLeB x z = true := by
  simp only [createdLeB, decide_eq_true_eq]
  omega

theorem stiffLists_lengths {recs : List Record}
    {q : List Int × List Int × List Int × List Int} (h : stiffLists recs = Except.ok q) :
    q.1.length = recs.length ∧ q.2.1.length = recs.length ∧
    q.2.2.1.length = recs.length ∧ q.2.2.2.length = recs.length := by
  induction recs generalizing q with
  | nil =>
    simp only [stiffLists] at h
    cases h
    simp
  | cons r rest ih =>
    simp only [stiffLists, bind, Except.bind] at h
    cases hrow : stiffRow r.stiffness with
    | error e => rw [hrow] at h; cases h
    | ok row =>
      rw [hrow] at h
      cases htails : stiffLists rest with
      | error e => rw [htails] at h; cases h
      | ok tails =>
        rw [htails] at h
        cases h
        have := ih htails
        simp [this]

theorem report_ok_elim {db : List Record} {uid : Nat} {s e : Option String} {c : Chart}
    (h : report db uid s e = Except.ok c) :
    ∃ sd ed lists, parseYMD (s.getD "") = some sd ∧ parseYMD (e.getD "") = some ed ∧
      stiffLists (reportRecords db uid sd ed) = Except.ok lists ∧
      c = ⟨((reportRecords db uid sd ed).map labelOf).reverse,
           ((reportRecords db uid sd ed).map (fun r => r.numbness_strength)).reverse,
           lists.1.reverse, lists.2.1.reverse, lists.2.2.1.reverse, lists.2.2.2.reverse,
           reportRecords db uid sd ed⟩ := by
  unfold report at h
  split at h
  · cases h
  · split at h
    next sd ed hsd hed =>
      split at h
      next lists hl =>
        cases h
        exact ⟨sd, ed, lists, hsd, hed, hl, rfl⟩
      next => cases h
    next => cases h

theorem mem_reportRecords {db : List Record} {uid : Nat} {sd ed : Date} {r : Record} :
    r ∈ reportRecords db uid sd ed ↔
      (r ∈ db ∧ r.user_id = uid ∧ startUtcOf sd ≤ r.created_at ∧ r.created_at ≤ endUtcOf ed) := by
  unfold reportRecords
  rw [mem_sortByB, List.mem_filter]
  simp only [Bool.and_eq_true, beq_iff_eq, decide_eq_true_eq]
  tauto

/-- C1 (amended): the chart's series are in reverse chronological order, not
ascending: the selected records are ascending by `created_at`, and the
numbness series is the reverse of the per-record values, so the spec's
09:00/14:30 example yields `[5, 2]`, not `[2, 5]`
(see `C1_counterexample`). -/
theorem C1_series_reverse_chronological {db : List Record} {uid : Nat}
    {s e : Option String} {c : Chart} (h : report db uid s e = Except.ok c) :
    c.numbness_data = (c.records.map (fun r => r.numbness_strength)).reverse ∧
    List.Pairwise (fun a b : Record => a.created_at ≤ b.created_at) c.records := by
  obtain ⟨sd, ed, lists, hsd, hed, hl, rfl⟩ := report_ok_elim h
  refine ⟨rfl, ?_⟩
  show List.Pairwise _ (reportRecords db uid sd ed)
  unfold reportRecords
  refine (pairwise_sortByB createdLeB_total createdLeB_trans _).imp ?_
  intro a b hab
  simpa [createdLeB] using hab

/-- C1 counterexample: two records of one owner at local 09:00 and 14:30 on
2024-06-01 with numbness strengths 2 and 5; the report over that single day
has numbness dataset `[5, 2]`, not the claimed chronological `[2, 5]`,
because the route reverses every chart array after the ascending query. -/
theorem C1_counterexample :
    report dbC1 10 (some "2024-06-01") (some "2024-06-01") = Except.ok chartC1 ∧
    chartC1.numbness_data = [5, 2] ∧ chartC1.numbness_data ≠ [2, 5] :=
  ⟨rfl, rfl, by decide⟩

theorem C1_witness :
    chartC1.numbness_data = (chartC1.records.map (fun r => r.numbness_strength)).reverse ∧
    List.Pairwise (fun a b : Record => a.created_at ≤ b.created_at) chartC1.records :=
  C1_series_reverse_chronological
    (show report dbC1 10 (some "2024-06-01") (some "2024-06-01") = Except.ok chartC1 from rfl)

/-- C2: whenever the report succeeds its labels array and all five data
series have one entry per selected record, hence equal lengths; and a range
selecting no records yields the all-empty chart rather than an error. -/
theorem C2_series_alignment (db : List Record) (uid : Nat) :
    (∀ s e c, report db uid s e = Except.ok c →
       c.labels.length = c.records.length ∧
       c.numbness_data.length = c.records.length ∧
       c.stiffness_r_hand_data.length = c.records.length ∧
       c.stiffness_l_hand_data.length = c.records.length ∧
       c.stiffness_r_knee_data.length = c.records.length ∧
       c.stiffness_l_knee_data.length = c.records.length) ∧
    (∀ ss es sd ed, parseYMD ss = some sd → parseYMD es = some ed →
       reportRecords db uid sd ed = [] →
       report db uid (some ss) (some es) = Except.ok ⟨[], [], [], [], [], [], []⟩) := by
  constructor
  · intro s e c h
    obtain ⟨sd, ed, lists, hsd, hed, hl, rfl⟩ := report_ok_elim h
    have hL := stiffLists_lengths hl
    simp [hL.1, hL.2.1, hL.2.2.1, hL.2.2.2]
  · intro ss es sd ed hsd hed hrec
    have hss : ¬ ss = "" := by
      intro hq
      rw [hq] at hsd
      rw [show parseYMD "" = none from rfl] at hsd
      cases hsd
    have hes : ¬ es = "" := by
      intro hq
      rw [hq] at hed
      rw [show parseYMD "" = none from rfl] at hed
      cases hed
    unfold report
    rw [if_neg (by simpa using And.intro hss hes)]
    rw [show (some ss).getD "" = ss from rfl, show (some es).getD "" = es from rfl]
    rw [hsd, hed]
    simp only []
    rw [hrec]
    rfl

theorem C2_witness :
    ((report dbC1 10 (some "2024-06-01") (some "2024-06-01")).toOption.map
        (fun c => (c.labels.length, c.records.length)) = some (2, 2)) ∧
    report ([] : List Record) 1 (some "2024-06-01") (some "2024-06-01") =
      Except.ok ⟨[], [], [], [], [], [], []⟩ := by
  constructor
  · have h := ((C2_series_alignment dbC1 10).1 (some "2024-06-01") (some "2024-06-01") chartC1
      (show report dbC1 10 (some "2024-06-01") (some "2024-06-01") = Except.ok chartC1 from rfl)).1
    rw [show report dbC1 10 (some "2024-06-01") (some "2024-06-01") = Except.ok chartC1 from rfl]
    simp only [Except.toOption, Option.map]
    rw [h]
    rfl
  · exact (C2_series_alignment ([] : List Record) 1).2 "2024-06-01" "2024-06-01"
      ⟨2024, 6, 1⟩ ⟨2024, 6, 1⟩ rfl rfl rfl

/-- C3 (amended): stiffness text that is not valid JSON (including empty
text) decodes to the empty default and contributes 0 to all four series, and
a region key absent from the strength mapping contributes 0; but a region
value that is present and not coercible by `int()` raises on the report read
path instead of contributing 0 (see `C3_counterexample`). -/
theorem C3_decode_tolerance :
    (∀ text, parseJson text = none →
       stiffRow text = Except.ok (0, 0, 0, 0) ∧ decodeIndex text = defaultStiffness) ∧
    (∀ text kvs sm, parseJson text = some (Json.obj kvs) →
       dictGetD kvs "strength" (Json.obj []) = Json.obj sm →
       dictGetD sm "R_Hand" (Json.jint 0) = Json.jint 0 →
       dictGetD sm "L_Hand" (Json.jint 0) = Json.jint 0 →
       dictGetD sm "R_Knee" (Json.jint 0) = Json.jint 0 →
       dictGetD sm "L_Knee" (Json.jint 0) = Json.jint 0 →
       stiffRow text = Except.ok (0, 0, 0, 0)) := by
  constructor
  · intro text ht
    constructor
    · simp [stiffRow, ht]
    · simp [decodeIndex, ht]
  · intro text kvs sm ht hs h1 h2 h3 h4
    simp [stiffRow, ht, asDict, hs, h1, h2, h3, h4, pyInt, bind, Except.bind]

/-- C3 counterexample: a record whose stored stiffness is valid JSON with a
region value `int()` cannot parse; the report read path raises `ValueError`
instead of substituting 0, so the whole report request fails. -/
theorem C3_counterexample :
    stiffRow badStiffText = Except.error "ValueError" ∧
    report dbC3 3 (some "2024-06-01") (some "2024-06-01") =
      Except.error (RepError.serverError "ValueError") :=
  ⟨rfl, rfl⟩

theorem C3_witness :
    (stiffRow "" = Except.ok (0, 0, 0, 0) ∧ decodeIndex "" = defaultStiffness) ∧
    stiffRow "\x7b\x7d" = Except.ok (0, 0, 0, 0) :=
  ⟨C3_decode_tolerance.1 "" rfl,
   C3_decode_tolerance.2 "\x7b\x7d" [] [] rfl rfl rfl rfl rfl rfl⟩

/-- C4 (amended): the chart label of a record is
`"<month/day of the user-chosen date column> <local HH:MM of created_at>"`:
only the hour:minute part comes from converting the UTC `created_at` to the
local zone, while the month/day part is `record.date.strftime("%m/%d")`
(see `C4_counterexample`). -/
theorem C4_labels {db : List Record} {uid : Nat} {s e : Option String} {c : Chart}
    (h : report db uid s e = Except.ok c) :
    c.labels = (c.records.map labelOf).reverse := by
  obtain ⟨sd, ed, lists, hsd, hed, hl, rfl⟩ := report_ok_elim h
  rfl

/-- C4 counterexample: a record submitted at local 2024-06-01 09:00 whose
user-chosen date is 2024-06-02 gets label "06/02 09:00", while a label
derived entirely from `created_at` (as the claim states) would be
"06/01 09:00". -/
theorem C4_counterexample :
    report dbC4 7 (some "2024-06-01") (some "2024-06-02") =
      Except.ok ⟨["06/02 09:00"], [0], [0], [0], [0], [0], dbC4⟩ ∧
    labelOf recC4 = "06/02 09:00" ∧ specLabel recC4 = "06/01 09:00" ∧
    labelOf recC4 ≠ specLabel recC4 :=
  ⟨rfl, rfl, rfl, by decide⟩

theorem C4_witness :
    (Chart.mk ["06/02 09:00"] [0] [0] [0] [0] [0] dbC4).labels =
      ((Chart.mk ["06/02 09:00"] [0] [0] [0] [0] [0] dbC4).records.map labelOf).reverse :=
  C4_labels (show report dbC4 7 (some "2024-06-01") (some "2024-06-02") =
    Except.ok ⟨["06/02 09:00"], [0], [0], [0], [0], [0], dbC4⟩ from rfl)

/-- C5: a valid start date is interpreted as local midnight and a valid end
date as local 23:59:59, both converted from the fixed local zone to UTC, and
exactly the owner's records with `created_at` in the inclusive UTC window
are selected; a same-day report only contains records submitted inside that
local calendar day.  The year bounds keep the constant +09:00 model of
Asia/Tokyo exact. -/
theorem C5_range_selection (db : List Record) (uid : Nat) (sd ed : Date)
    (_hy1 : 1952 ≤ sd.y) (_hy2 : 1952 ≤ ed.y) :
    (∀ r, r ∈ reportRecords db uid sd ed ↔
       (r ∈ db ∧ r.user_id = uid ∧ startUtcOf sd ≤ r.created_at ∧ r.created_at ≤ endUtcOf ed)) ∧
    (∀ ss es c, parseYMD ss = some sd → parseYMD es = some ed →
       report db uid (some ss) (some es) = Except.ok c →
       c.records = reportRecords db uid sd ed) ∧
    (∀ r, r ∈ reportRecords db uid sd sd →
       daysFromCivil sd.y sd.m sd.d * 86400 ≤ r.created_at + jstOffsetSeconds ∧
       r.created_at + jstOffsetSeconds < daysFromCivil sd.y sd.m sd.d * 86400 + 86400) := by
  refine ⟨fun r => mem_reportRecords, ?_, ?_⟩
  · intro ss es c hsd hed h
    obtain ⟨sd2, ed2, lists, hsd2, hed2, hl, rfl⟩ := report_ok_elim h
    rw [show (some ss).getD "" = ss from rfl] at hsd2
    rw [show (some es).getD "" = es from rfl] at hed2
    rw [hsd] at hsd2
    rw [hed] at hed2
    cases hsd2
    cases hed2
    rfl
  · intro r hr
    have hb := (mem_reportRecords.mp hr).2.2
    unfold startUtcOf endUtcOf jstOffsetSeconds at hb
    unfold jstOffsetSeconds
    omega

theorem C5_witness :
    daysFromCivil 2024 6 1 * 86400 ≤ 1717219800 + jstOffsetSeconds ∧
    1717219800 + jstOffsetSeconds < daysFromCivil 2024 6 1 * 86400 + 86400 :=
  (C5_range_selection dbC1 10 ⟨2024, 6, 1⟩ ⟨2024, 6, 1⟩ (by decide) (by decide)).2.2
    ⟨2, ⟨2024, 6, 1⟩, 1717219800, 5, "", "", "", 10⟩ (by decide)

/-- C7: deleting a nonexistent record fails with NotFound; deleting another
owner's record fails with Forbidden and leaves the store untouched;
otherwise exactly the targeted record is removed. -/
theorem C7_delete (db : List Record) (uid rid : Nat) :
    ((∀ r ∈ db, r.id ≠ rid) → delete_record db uid rid = (DelResult.notFound, db)) ∧
    (∀ r, db.find? (fun q => q.id == rid) = some r → r.user_id ≠ uid →
       delete_record db uid rid = (DelResult.forbidden, db)) ∧
    (∀ r, db.find? (fun q => q.id == rid) = some r → r.user_id = uid →
       (delete_record db uid rid).1 = DelResult.deleted ∧
       ∀ q, q ∈ (delete_record db uid rid).2 ↔ (q ∈ db ∧ q.id ≠ rid)) := by
  refine ⟨?_, ?_, ?_⟩
  · intro hall
    unfold delete_record
    have hnone : db.find? (fun q => q.id == rid) = none := by
      rw [List.find?_eq_none]
      intro r hr
      simpa using hall r hr
    rw [hnone]
  · intro r hfind hne
    simp only [delete_record, hfind]
    rw [if_pos hne]
  · intro r hfind heq
    simp only [delete_record, hfind]
    rw [if_neg (by simp [heq])]
    refine ⟨rfl, fun q => ?_⟩
    simp [List.mem_filter]

theorem C7_witness :
    delete_record dbDel 1 3 = (DelResult.notFound, dbDel) ∧
    delete_record dbDel 1 2 = (DelResult.forbidden, dbDel) ∧
    ((delete_record dbDel 1 1).1 = DelResult.deleted ∧
     ((⟨1, ⟨2024, 6, 1⟩, 0, 0, "", "", "", 1⟩ : Record) ∈ (delete_record dbDel 1 1).2 ↔
        ((⟨1, ⟨2024, 6, 1⟩, 0, 0, "", "", "", 1⟩ : Record) ∈ dbDel ∧ (1 : Nat) ≠ 1))) := by
  refine ⟨(C7_delete dbDel 1 3).1 (by decide), ?_, ?_⟩
  · exact (C7_delete dbDel 1 2).2.1 ⟨2, ⟨2024, 6, 1⟩, 5, 0, "", "", "", 2⟩ rfl (by decide)
  · have h := (C7_delete dbDel 1 1).2.2 ⟨1, ⟨2024, 6, 1⟩, 0, 0, "", "", "", 1⟩ rfl rfl
    exact ⟨h.1, h.2 ⟨1, ⟨2024, 6, 1⟩, 0, 0, "", "", "", 1⟩⟩

/-- C8: the index listing and the report query only ever return records of
the requesting owner. -/
theorem C8_owner_scoping (db : List Record) (uid : Nat) (sd ed : Date) :
    (∀ r ∈ list_for_owner db uid, r.user_id = uid) ∧
    (∀ r ∈ reportRecords db uid sd ed, r.user_id = uid) := by
  constructor
  · intro r hr
    unfold list_for_owner at hr
    rw [mem_sortByB, List.mem_filter] at hr
    simpa using hr.2
  · intro r hr
    exact (mem_reportRecords.mp hr).2.1

theorem C8_witness :
    (⟨1, ⟨2024, 6, 1⟩, 1717200000, 2, "", "", "", 10⟩ : Record).user_id = 10 :=
  (C8_owner_scoping dbC1 10 ⟨2024, 6, 1⟩ ⟨2024, 6, 1⟩).1
    ⟨1, ⟨2024, 6, 1⟩, 1717200000, 2, "", "", "", 10⟩ (by decide)

/-- C9: a report request with a missing (or empty) bound flashes a warning,
and one with an unparseable date flashes a format error; both abort with a
result that does not depend on the store, so no store query is performed. -/
theorem C9_invalid_input (db : List Record) (uid : Nat) :
    (∀ s e, s.getD "" = "" ∨ e.getD "" = "" →
       report db uid s e = Except.error RepError.missingRange) ∧
    (∀ ss es, ¬(ss = "" ∨ es = "") → (parseYMD ss = none ∨ parseYMD es = none) →
       report db uid (some ss) (some es) = Except.error RepError.badFormat) := by
  constructor
  · intro s e h
    unfold report
    rw [if_pos h]
  · intro ss es hne hp
    unfold report
    rw [if_neg (by simpa using hne)]
    rw [show (some ss).getD "" = ss from rfl, show (some es).getD "" = es from rfl]
    rcases hp with h | h
    · rw [h]
    · rw [h]
      cases parseYMD ss <;> rfl

theorem C9_witness :
    report dbC1 10 none (some "2024-06-01") = Except.error RepError.missingRange ∧
    report dbC1 10 (some "2024-13-01") (some "2024-06-01") = Except.error RepError.badFormat :=
  ⟨(C9_invalid_input dbC1 10).1 none (some "2024-06-01") (Or.inl rfl),
   (C9_invalid_input dbC1 10).2 "2024-13-01" "2024-06-01" (by decide) (Or.inl rfl)⟩

/-- C10: creating a record appends exactly one row, leaving every existing
row (of any owner) in place; deleting a record removes exactly the targeted
row, and in particular every other owner's records survive. -/
theorem C10_frame (db : List Record) (r0 : Record) (uid rid : Nat) :
    ((createRecord db r0).length = db.length + 1 ∧
     (∀ q ∈ db, q ∈ createRecord db r0) ∧
     (∀ q ∈ createRecord db r0, q ∈ db ∨ q = r0)) ∧
    (∀ r, db.find? (fun q => q.id == rid) = some r → r.user_id = uid →
       (db.map (fun q => q.id)).Nodup →
       ((∀ q, q ∈ (delete_record db uid rid).2 ↔ (q ∈ db ∧ q.id ≠ rid)) ∧
        (∀ q ∈ db, q.user_id ≠ uid → q ∈ (delete_record db uid rid).2))) := by
  constructor
  · refine ⟨by simp [createRecord], fun q hq => by simp [createRecord, hq], fun q hq => ?_⟩
    simpa [createRecord] using hq
  · intro r hfind heq hnodup
    have hchar : ∀ q, q ∈ (delete_record db uid rid).2 ↔ (q ∈ db ∧ q.id ≠ rid) := by
      simp only [delete_record, hfind]
      rw [if_neg (by simp [heq])]
      intro q
      simp [List.mem_filter]
    refine ⟨hchar, fun q hq hqu => ?_⟩
    rw [hchar q]
    refine ⟨hq, fun hid => ?_⟩
    have hrmem : r ∈ db := List.mem_of_find?_eq_some hfind
    have hrid : r.id = rid := by simpa using List.find?_some hfind
    have hqr : q = r :=
      List.inj_on_of_nodup_map hnodup hq hrmem (by rw [hid, hrid])
    rw [hqr] at hqu
    exact hqu heq

theorem C10_witness :
    ((createRecord dbDel ⟨3, ⟨2024, 6, 2⟩, 7, 1, "", "\x7b\x7d", "", 1⟩).length = dbDel.length + 1 ∧
     (⟨2, ⟨2024, 6, 1⟩, 5, 0, "", "", "", 2⟩ : Record) ∈
       createRecord dbDel ⟨3, ⟨2024, 6, 2⟩, 7, 1, "", "\x7b\x7d", "", 1⟩) ∧
    (⟨2, ⟨2024, 6, 1⟩, 5, 0, "", "", "", 2⟩ : Record) ∈ (delete_record dbDel 1 1).2 := by
  refine ⟨⟨(C10_frame dbDel ⟨3, ⟨2024, 6, 2⟩, 7, 1, "", "\x7b\x7d", "", 1⟩ 1 1).1.1, ?_⟩, ?_⟩
  · exact (C10_frame dbDel ⟨3, ⟨2024, 6, 2⟩, 7, 1, "", "\x7b\x7d", "", 1⟩ 1 1).1.2.1
      ⟨2, ⟨2024, 6, 1⟩, 5, 0, "", "", "", 2⟩ (by decide)
  · exact ((C10_frame dbDel ⟨3, ⟨2024, 6, 2⟩, 7, 1, "", "\x7b\x7d", "", 1⟩ 1 1).2
      ⟨1, ⟨2024, 6, 1⟩, 0, 0, "", "", "", 1⟩ rfl rfl (by decide)).2
      ⟨2, ⟨2024, 6, 1⟩, 5, 0, "", "", "", 2⟩ (by decide) (by decide)

theorem pskipWs_cons (c : Char) (cs : List Char)
    (h : ¬(c = ' ' ∨ c = '\t' ∨ c = '\n' ∨ c = '\r')) : pskipWs (c :: cs) = c :: cs := by
  simp only [pskipWs]
  rw [if_neg h]

theorem parseVal_quote (f : Nat) (cs rest0 : List Char) (h : pskipWs rest0 = '"' :: cs) :
    parseVal (f + 1) rest0 = (parseStrBody cs).map (fun p => (Json.str (String.mk p.1), p.2)) := by
  simp only [parseVal, h]
  simp

theorem parseVal_arr_empty (f : Nat) (cs cs2 rest0 : List Char)
    (h : pskipWs rest0 = '[' :: cs) (h2 : pskipWs cs = ']' :: cs2) :
    parseVal (f + 1) rest0 = some (Json.arr [], cs2) := by
  simp only [parseVal, h, h2]
  simp

theorem parseVal_arr_str (f : Nat) (cs cs2 rest0 : List Char)
    (h : pskipWs rest0 = '[' :: cs) (h2 : pskipWs cs = '"' :: cs2) :
    parseVal (f + 1) rest0 = (parseElems f cs).map (fun p => (Json.arr p.1, p.2)) := by
  simp only [parseVal, h, h2]
  simp

theorem parseVal_obj_str (f : Nat) (cs cs2 rest0 : List Char)
    (h : pskipWs rest0 = '\x7b' :: cs) (h2 : pskipWs cs = '"' :: cs2) :
    parseVal (f + 1) rest0 = (parseMembers f cs).map (fun p => (Json.obj p.1, p.2)) := by
  simp only [parseVal, h, h2]
  simp

theorem parseElems_close (f : Nat) (cs r1 r2 : List Char) (v : Json)
    (h1 : parseVal f cs = some (v, r1)) (h2 : pskipWs r1 = ']' :: r2) :
    parseElems (f + 1) cs = some ([v], r2) := by
  simp only [parseElems, h1, h2]
  simp

theorem parseElems_comma (f : Nat) (cs r1 r2 r3 : List Char) (v : Json) (vs : List Json)
    (h1 : parseVal f cs = some (v, r1)) (h2 : pskipWs r1 = ',' :: r2)
    (h3 : parseElems f r2 = some (vs, r3)) :
    parseElems (f + 1) cs = some (v :: vs, r3) := by
  simp only [parseElems, h1, h2, h3]
  simp

theorem parseMembers_close (f : Nat) (cs cs1 r1 r2 r3 r4 : List Char) (k : List Char) (v : Json)
    (h0 : pskipWs cs = '"' :: cs1) (h1 : parseStrBody cs1 = some (k, r1))
    (h2 : pskipWs r1 = ':' :: r2) (h3 : parseVal f r2 = some (v, r3))
    (h4 : pskipWs r3 = '\x7d' :: r4) :
    parseMembers (f + 1) cs = some ([(String.mk k, v)], r4) := by
  simp only [parseMembers, h0, h1, h2, h3, h4]
  simp

theorem parseMembers_comma (f : Nat) (cs cs1 r1 r2 r3 r4 r5 : List Char) (k : List Char)
    (v : Json) (kvs : List (String × Json))
    (h0 : pskipWs cs = '"' :: cs1) (h1 : parseStrBody cs1 = some (k, r1))
    (h2 : pskipWs r1 = ':' :: r2) (h3 : parseVal f r2 = some (v, r3))
    (h4 : pskipWs r3 = ',' :: r4) (h5 : parseMembers f r4 = some (kvs, r5)) :
    parseMembers (f + 1) cs = some ((String.mk k, v) :: kvs, r5) := by
  simp only [parseMembers, h0, h1, h2, h3, h4, h5]
  simp

theorem pskipWs_dumpStr (s : String) (rest : List Char) :
    pskipWs (dumpStrR s rest) = '"' :: escapeR s.data ('"' :: rest) := by
  unfold dumpStrR
  exact pskipWs_cons _ _ (by decide)

theorem escapeR_plain (cs rest : List Char) (h : ∀ c ∈ cs, PlainChar c) :
    escapeR cs rest = cs ++ rest := by
  induction cs with
  | nil => rfl
  | cons c cs2 ih =>
    have hc := h c (by simp)
    obtain ⟨h1, h2, h3⟩ := hc
    have hrec := ih (fun x hx => h x (by simp [hx]))
    simp only [escapeR, hrec, escapeCharR]
    rw [if_neg h1, if_neg h2]
    rw [if_neg, if_neg, if_neg, if_neg, if_neg, if_neg]
    · simp
    · omega
    all_goals
      intro hq
      rw [hq] at h3
      revert h3
      decide

theorem parseStrBody_plain (cs rest : List Char) (h : ∀ c ∈ cs, PlainChar c) :
    parseStrBody (cs ++ '"' :: rest) = some (cs, rest) := by
  induction cs with
  | nil =>
    rw [List.nil_append, parseStrBody.eq_def]
    simp
  | cons c cs2 ih =>
    have hc := h c (by simp)
    rw [List.cons_append, parseStrBody.eq_def]
    simp only []
    rw [if_neg hc.1, if_neg hc.2.1]
    rw [ih (fun x hx => h x (by simp [hx]))]
    rfl

theorem parseVal_ws (f : Nat) (cs : List Char) :
    parseVal f (' ' :: cs) = parseVal f cs := by
  cases f with
  | zero => rfl
  | succ f2 =>
    simp only [parseVal]
    rw [show pskipWs (' ' :: cs) = pskipWs cs by simp [pskipWs]]

theorem parseElems_ws (f : Nat) (cs : List Char) :
    parseElems f (' ' :: cs) = parseElems f cs := by
  cases f with
  | zero => rfl
  | succ f2 =>
    simp only [parseElems]
    rw [parseVal_ws]

theorem parseMembers_ws (f : Nat) (cs : List Char) :
    parseMembers f (' ' :: cs) = parseMembers f cs := by
  cases f with
  | zero => rfl
  | succ f2 =>
    simp only [parseMembers]
    rw [show pskipWs (' ' :: cs) = pskipWs cs by simp [pskipWs]]

theorem parseVal_str (f : Nat) (s : String) (rest : List Char) (hs : PlainStr s) :
    parseVal (f + 1) (dumpStrR s rest) = some (Json.str s, rest) := by
  rw [parseVal_quote f _ _ (pskipWs_dumpStr s rest)]
  rw [escapeR_plain s.data ('"' :: rest) hs]
  rw [parseStrBody_plain s.data rest hs]
  rfl

theorem parseElems_strs (ss : List String) (s : String) (f : Nat) (rest : List Char)
    (hs : PlainStr s) (hss : ∀ x ∈ ss, PlainStr x) (hf : ss.length + 2 ≤ f) :
    parseElems f (dumpStrR s (dumpArrTailR (ss.map Json.str) (']' :: rest))) =
      some (Json.str s :: ss.map Json.str, rest) := by
  induction ss generalizing s f rest with
  | nil =>
    obtain ⟨f1, rfl⟩ : ∃ g, f = g + 1 := ⟨f - 1, by omega⟩
    obtain ⟨f2, rfl⟩ : ∃ g, f1 = g + 1 := ⟨f1 - 1, by omega⟩
    simp only [List.map_nil]
    rw [show dumpArrTailR [] (']' :: rest) = ']' :: rest from rfl]
    exact parseElems_close (f2 + 1) _ _ _ _ (parseVal_str f2 s _ hs)
      (pskipWs_cons _ _ (by decide))
  | cons x ss2 ih =>
    obtain ⟨f1, rfl⟩ : ∃ g, f = g + 1 := ⟨f - 1, by omega⟩
    obtain ⟨f2, rfl⟩ : ∃ g, f1 = g + 1 := ⟨f1 - 1, by omega⟩
    simp only [List.map_cons]
    rw [show dumpArrTailR (Json.str x :: List.map Json.str ss2) (']' :: rest) =
        ',' :: ' ' :: dumpStrR x (dumpArrTailR (List.map Json.str ss2) (']' :: rest)) from by
      simp [dumpArrTailR, dumpsValR]]
    have h3 : parseElems (f2 + 1)
        (' ' :: dumpStrR x (dumpArrTailR (List.map Json.str ss2) (']' :: rest))) =
        some (Json.str x :: ss2.map Json.str, rest) := by
      rw [parseElems_ws]
      exact ih x (f2 + 1) rest (hss x (by simp)) (fun q hq => hss q (by simp [hq]))
        (by simp at hf ⊢; omega)
    exact parseElems_comma (f2 + 1) _ _ _ _ _ _ (parseVal_str f2 s _ hs)
      (pskipWs_cons _ _ (by decide)) h3

theorem parseVal_strArr (parts : List String) (f : Nat) (rest : List Char)
    (hp : ∀ p ∈ parts, PlainStr p) (hf : parts.length + 2 ≤ f) :
    parseVal f (dumpsValR (Json.arr (parts.map Json.str)) rest) =
      some (Json.arr (parts.map Json.str), rest) := by
  obtain ⟨f1, rfl⟩ : ∃ g, f = g + 1 := ⟨f - 1, by omega⟩
  cases parts with
  | nil =>
    rw [show dumpsValR (Json.arr (List.map Json.str [])) rest = '[' :: ']' :: rest from by
      simp [dumpsValR]]
    exact parseVal_arr_empty f1 _ _ _ (pskipWs_cons _ _ (by decide))
      (pskipWs_cons _ _ (by decide))
  | cons p ps =>
    rw [show dumpsValR (Json.arr (List.map Json.str (p :: ps))) rest =
        '[' :: dumpStrR p (dumpArrTailR (List.map Json.str ps) (']' :: rest)) from by
      simp [dumpsValR]]
    rw [parseVal_arr_str f1 _ _ _ (pskipWs_cons _ _ (by decide)) (pskipWs_dumpStr p _)]
    rw [parseElems_strs ps p f1 rest (hp p (by simp)) (fun q hq => hp q (by simp [hq]))
      (by simp at hf ⊢; omega)]
    rfl

theorem parseMembers_strs (kvs : List (String × String)) (k v : String) (f : Nat)
    (rest : List Char) (hk : PlainStr k) (hv : PlainStr v)
    (hkvs : ∀ p ∈ kvs, PlainStr p.1 ∧ PlainStr p.2) (hf : kvs.length + 2 ≤ f) :
    parseMembers f (dumpStrR k (':' :: ' ' :: dumpStrR v
        (dumpObjTailR (kvs.map (fun p => (p.1, Json.str p.2))) ('\x7d' :: rest)))) =
      some ((k, Json.str v) :: kvs.map (fun p => (p.1, Json.str p.2)), rest) := by
  induction kvs generalizing k v f rest with
  | nil =>
    obtain ⟨f1, rfl⟩ : ∃ g, f = g + 1 := ⟨f - 1, by omega⟩
    obtain ⟨f2, rfl⟩ : ∃ g, f1 = g + 1 := ⟨f1 - 1, by omega⟩
    simp only [List.map_nil]
    rw [show dumpObjTailR [] ('\x7d' :: rest) = '\x7d' :: rest from rfl]
    have h1 : parseStrBody (escapeR k.data ('"' ::
        (':' :: ' ' :: dumpStrR v ('\x7d' :: rest)))) =
        some (k.data, ':' :: ' ' :: dumpStrR v ('\x7d' :: rest)) := by
      rw [escapeR_plain _ _ hk]
      exact parseStrBody_plain _ _ hk
    have h3 : parseVal (f2 + 1) (' ' :: dumpStrR v ('\x7d' :: rest)) =
        some (Json.str v, '\x7d' :: rest) := by
      rw [parseVal_ws]
      exact parseVal_str f2 v _ hv
    exact parseMembers_close (f2 + 1) _ _ _ _ _ _ _ _ (pskipWs_dumpStr k _) h1
      (pskipWs_cons _ _ (by decide)) h3 (pskipWs_cons _ _ (by decide))
  | cons q kvs2 ih =>
    obtain ⟨f1, rfl⟩ : ∃ g, f = g + 1 := ⟨f - 1, by omega⟩
    obtain ⟨f2, rfl⟩ : ∃ g, f1 = g + 1 := ⟨f1 - 1, by omega⟩
    simp only [List.map_cons]
    rw [show dumpObjTailR ((q.1, Json.str q.2) :: List.map (fun p => (p.1, Json.str p.2)) kvs2)
          ('\x7d' :: rest) =
        ',' :: ' ' :: dumpStrR q.1 (':' :: ' ' :: dumpStrR q.2
          (dumpObjTailR (List.map (fun p => (p.1, Json.str p.2)) kvs2) ('\x7d' :: rest)))
        from by simp [dumpObjTailR, dumpsValR]]
    have h1 : parseStrBody (escapeR k.data ('"' :: (':' :: ' ' :: dumpStrR v
        (',' :: ' ' :: dumpStrR q.1 (':' :: ' ' :: dumpStrR q.2
          (dumpObjTailR (List.map (fun p => (p.1, Json.str p.2)) kvs2) ('\x7d' :: rest))))))) =
        some (k.data, ':' :: ' ' :: dumpStrR v
          (',' :: ' ' :: dumpStrR q.1 (':' :: ' ' :: dumpStrR q.2
            (dumpObjTailR (List.map (fun p => (p.1, Json.str p.2)) kvs2) ('\x7d' :: rest))))) := by
      rw [escapeR_plain _ _ hk]
      exact parseStrBody_plain _ _ hk
    have h3 : parseVal (f2 + 1) (' ' :: dumpStrR v
        (',' :: ' ' :: dumpStrR q.1 (':' :: ' ' :: dumpStrR q.2
          (dumpObjTailR (List.map (fun p => (p.1, Json.str p.2)) kvs2) ('\x7d' :: rest))))) =
        some (Json.str v, ',' :: ' ' :: dumpStrR q.1 (':' :: ' ' :: dumpStrR q.2
          (dumpObjTailR (List.map (fun p => (p.1, Json.str p.2)) kvs2) ('\x7d' :: rest)))) := by
      rw [parseVal_ws]
      exact parseVal_str f2 v _ hv
    have h5 : parseMembers (f2 + 1) (' ' :: dumpStrR q.1 (':' :: ' ' :: dumpStrR q.2
        (dumpObjTailR (List.map (fun p => (p.1, Json.str p.2)) kvs2) ('\x7d' :: rest)))) =
        some ((q.1, Json.str q.2) :: kvs2.map (fun p => (p.1, Json.str p.2)), rest) := by
      rw [parseMembers_ws]
      exact ih q.1 q.2 (f2 + 1) rest (hkvs q (by simp)).1 (hkvs q (by simp)).2
        (fun w hw => hkvs w (by simp [hw])) (by simp at hf ⊢; omega)
    exact parseMembers_comma (f2 + 1) _ _ _ _ _ _ _ _ _ _ (pskipWs_dumpStr k _) h1
      (pskipWs_cons _ _ (by decide)) h3 (pskipWs_cons _ _ (by decide)) h5

theorem parseVal_stiff (parts : List String) (rh lh rk lk : String) (f : Nat)
    (rest : List Char) (hp : ∀ p ∈ parts, PlainStr p)
    (h1 : PlainStr rh) (h2 : PlainStr lh) (h3 : PlainStr rk) (h4 : PlainStr lk)
    (hf : parts.length + 9 ≤ f) :
    parseVal f (dumpsValR (stiffJson parts rh lh rk lk) rest) =
      some (stiffJson parts rh lh rk lk, rest) := by
  obtain ⟨f4, rfl⟩ : ∃ g, f = g + 4 := ⟨f - 4, by omega⟩
  have hspine : dumpsValR (stiffJson parts rh lh rk lk) rest =
      '\x7b' :: dumpStrR "parts" (':' :: ' ' ::
        dumpsValR (Json.arr (parts.map Json.str))
          (',' :: ' ' :: dumpStrR "strength" (':' :: ' ' ::
            dumpsValR (Json.obj [("R_Hand", Json.str rh), ("L_Hand", Json.str lh),
                                 ("R_Knee", Json.str rk), ("L_Knee", Json.str lk)])
              ('\x7d' :: rest)))) := by
    simp [stiffJson, dumpsValR, dumpObjTailR]
  rw [hspine]
  rw [show (f4 + 4 : Nat) = (f4 + 3) + 1 from rfl]
  rw [parseVal_obj_str (f4 + 3) _ _ _ (pskipWs_cons _ _ (by decide))
    (pskipWs_dumpStr "parts" _)]
  have hk1 : parseStrBody (escapeR "parts".data ('"' :: (':' :: ' ' ::
      dumpsValR (Json.arr (parts.map Json.str))
        (',' :: ' ' :: dumpStrR "strength" (':' :: ' ' ::
          dumpsValR (Json.obj [("R_Hand", Json.str rh), ("L_Hand", Json.str lh),
                               ("R_Knee", Json.str rk), ("L_Knee", Json.str lk)])
            ('\x7d' :: rest)))))) =
      some ("parts".data, ':' :: ' ' ::
        dumpsValR (Json.arr (parts.map Json.str))
          (',' :: ' ' :: dumpStrR "strength" (':' :: ' ' ::
            dumpsValR (Json.obj [("R_Hand", Json.str rh), ("L_Hand", Json.str lh),
                                 ("R_Knee", Json.str rk), ("L_Knee", Json.str lk)])
              ('\x7d' :: rest)))) := by
    rw [escapeR_plain _ _ (by decide)]
    exact parseStrBody_plain _ _ (by decide)
  have hARR : parseVal (f4 + 2) (' ' ::
      dumpsValR (Json.arr (parts.map Json.str))
        (',' :: ' ' :: dumpStrR "strength" (':' :: ' ' ::
          dumpsValR (Json.obj [("R_Hand", Json.str rh), ("L_Hand", Json.str lh),
                               ("R_Knee", Json.str rk), ("L_Knee", Json.str lk)])
            ('\x7d' :: rest)))) =
      some (Json.arr (parts.map Json.str),
        ',' :: ' ' :: dumpStrR "strength" (':' :: ' ' ::
          dumpsValR (Json.obj [("R_Hand", Json.str rh), ("L_Hand", Json.str lh),
                               ("R_Knee", Json.str rk), ("L_Knee", Json.str lk)])
            ('\x7d' :: rest))) := by
    rw [parseVal_ws]
    exact parseVal_strArr parts (f4 + 2) _ hp (by omega)
  have hOBJ : parseVal (f4 + 1) (' ' ::
      dumpsValR (Json.obj [("R_Hand", Json.str rh), ("L_Hand", Json.str lh),
                           ("R_Knee", Json.str rk), ("L_Knee", Json.str lk)])
        ('\x7d' :: rest)) =
      some (Json.obj [("R_Hand", Json.str rh), ("L_Hand", Json.str lh),
                      ("R_Knee", Json.str rk), ("L_Knee", Json.str lk)],
        '\x7d' :: rest) := by
    rw [parseVal_ws]
    rw [show dumpsValR (Json.obj [("R_Hand", Json.str rh), ("L_Hand", Json.str lh),
                                  ("R_Knee", Json.str rk), ("L_Knee", Json.str lk)])
          ('\x7d' :: rest) =
        '\x7b' :: dumpStrR "R_Hand" (':' :: ' ' :: dumpStrR rh
          (dumpObjTailR ([("L_Hand", lh), ("R_Knee", rk), ("L_Knee", lk)].map
              (fun p => (p.1, Json.str p.2)))
            ('\x7d' :: '\x7d' :: rest))) from by
      simp [dumpsValR, dumpObjTailR]]
    rw [show (f4 + 1 : Nat) = f4 + 1 from rfl]
    rw [parseVal_obj_str f4 _ _ _ (pskipWs_cons _ _ (by decide))
      (pskipWs_dumpStr "R_Hand" _)]
    rw [parseMembers_strs [("L_Hand", lh), ("R_Knee", rk), ("L_Knee", lk)] "R_Hand" rh f4
      ('\x7d' :: rest) (by decide) h1 ?hkv
      (by simp only [List.length_cons, List.length_nil]; omega)]
    · rfl
    case hkv =>
      intro p hp2
      simp only [List.mem_cons, List.not_mem_nil, or_false] at hp2
      rcases hp2 with rfl | rfl | rfl
      · exact ⟨(by decide : PlainStr "L_Hand"), h2⟩
      · exact ⟨(by decide : PlainStr "R_Knee"), h3⟩
      · exact ⟨(by decide : PlainStr "L_Knee"), h4⟩
  have hstrength : parseMembers (f4 + 2) (' ' :: dumpStrR "strength" (':' :: ' ' ::
      dumpsValR (Json.obj [("R_Hand", Json.str rh), ("L_Hand", Json.str lh),
                           ("R_Knee", Json.str rk), ("L_Knee", Json.str lk)])
        ('\x7d' :: rest))) =
      some ([("strength", Json.obj [("R_Hand", Json.str rh), ("L_Hand", Json.str lh),
                                    ("R_Knee", Json.str rk), ("L_Knee", Json.str lk)])],
        rest) := by
    rw [parseMembers_ws]
    have hk2 : parseStrBody (escapeR "strength".data ('"' :: (':' :: ' ' ::
        dumpsValR (Json.obj [("R_Hand", Json.str rh), ("L_Hand", Json.str lh),
                             ("R_Knee", Json.str rk), ("L_Knee", Json.str lk)])
          ('\x7d' :: rest)))) =
        some ("strength".data, ':' :: ' ' ::
          dumpsValR (Json.obj [("R_Hand", Json.str rh), ("L_Hand", Json.str lh),
                               ("R_Knee", Json.str rk), ("L_Knee", Json.str lk)])
            ('\x7d' :: rest)) := by
      rw [escapeR_plain _ _ (by decide)]
      exact parseStrBody_plain _ _ (by decide)
    exact parseMembers_close (f4 + 1) _ _ _ _ _ _ _ _ (pskipWs_dumpStr "strength" _) hk2
      (pskipWs_cons _ _ (by decide)) hOBJ (pskipWs_cons _ _ (by decide))
  rw [parseMembers_comma (f4 + 2) _ _ _ _ _ _ _ _ _ _ (pskipWs_dumpStr "parts" _) hk1
    (pskipWs_cons _ _ (by decide)) hARR (pskipWs_cons _ _ (by decide)) hstrength]
  rfl

theorem len_escapeCharR (c : Char) (rest : List Char) :
    rest.length + 1 ≤ (escapeCharR c rest).length := by
  unfold escapeCharR
  split_ifs <;> simp

theorem len_escapeR (cs rest : List Char) : rest.length ≤ (escapeR cs rest).length := by
  induction cs with
  | nil => exact Nat.le_refl _
  | cons c cs2 ih =>
    have h1 := len_escapeCharR c (escapeR cs2 rest)
    simp only [escapeR]
    omega

theorem len_dumpStrR (s : String) (rest : List Char) :
    rest.length + 2 ≤ (dumpStrR s rest).length := by
  unfold dumpStrR
  have h1 := len_escapeR s.data ('"' :: rest)
  simp only [List.length_cons] at h1 ⊢
  omega

theorem len_dumpArrTail_strs (ss : List String) (rest : List Char) :
    rest.length + ss.length ≤ (dumpArrTailR (ss.map Json.str) rest).length := by
  induction ss generalizing rest with
  | nil => simp [dumpArrTailR]
  | cons x ss2 ih =>
    have h1 := len_dumpStrR x (dumpArrTailR (ss2.map Json.str) rest)
    have h2 := ih rest
    simp only [List.map_cons, dumpArrTailR, dumpsValR, List.length_cons]
    omega

theorem len_strArr (parts : List String) (rest : List Char) :
    rest.length + parts.length + 2 ≤
      (dumpsValR (Json.arr (parts.map Json.str)) rest).length := by
  cases parts with
  | nil => simp [dumpsValR]
  | cons p ps =>
    have h1 := len_dumpStrR p (dumpArrTailR (ps.map Json.str) (']' :: rest))
    have h2 := len_dumpArrTail_strs ps (']' :: rest)
    simp only [List.map_cons, dumpsValR, List.length_cons] at h1 h2 ⊢
    omega

theorem len_stiff (parts : List String) (rh lh rk lk : String) :
    parts.length + 8 ≤ (dumpsValR (stiffJson parts rh lh rk lk) []).length := by
  have hspine : dumpsValR (stiffJson parts rh lh rk lk) [] =
      '\x7b' :: dumpStrR "parts" (':' :: ' ' ::
        dumpsValR (Json.arr (parts.map Json.str))
          (',' :: ' ' :: dumpStrR "strength" (':' :: ' ' ::
            dumpsValR (Json.obj [("R_Hand", Json.str rh), ("L_Hand", Json.str lh),
                                 ("R_Knee", Json.str rk), ("L_Knee", Json.str lk)])
              ['\x7d']))) := by
    simp [stiffJson, dumpsValR, dumpObjTailR]
  rw [hspine]
  have h1 := len_dumpStrR "parts" (':' :: ' ' ::
    dumpsValR (Json.arr (parts.map Json.str))
      (',' :: ' ' :: dumpStrR "strength" (':' :: ' ' ::
        dumpsValR (Json.obj [("R_Hand", Json.str rh), ("L_Hand", Json.str lh),
                             ("R_Knee", Json.str rk), ("L_Knee", Json.str lk)])
          ['\x7d'])))
  have h2 := len_strArr parts
    (',' :: ' ' :: dumpStrR "strength" (':' :: ' ' ::
      dumpsValR (Json.obj [("R_Hand", Json.str rh), ("L_Hand", Json.str lh),
                           ("R_Knee", Json.str rk), ("L_Knee", Json.str lk)])
        ['\x7d']))
  simp only [List.length_cons] at h1 h2 ⊢
  omega

theorem parseJson_encode (parts : List String) (rh lh rk lk : String)
    (hp : ∀ p ∈ parts, PlainStr p)
    (h1 : PlainStr rh) (h2 : PlainStr lh) (h3 : PlainStr rk) (h4 : PlainStr lk) :
    parseJson (encodeStiffness parts rh lh rk lk) = some (stiffJson parts rh lh rk lk) := by
  unfold encodeStiffness dumps parseJson
  rw [show (String.mk (dumpsValR (stiffJson parts rh lh rk lk) [])).data =
      dumpsValR (stiffJson parts rh lh rk lk) [] from rfl]
  rw [parseVal_stiff parts rh lh rk lk _ [] hp h1 h2 h3 h4 ?bound]
  · simp [pskipWs]
  case bound =>
    have := len_stiff parts rh lh rk lk
    omega

theorem stiffRow_encode (parts : List String) (rh lh rk lk : String)
    (nrh nlh nrk nlk : Int) (hp : ∀ p ∈ parts, PlainStr p)
    (h1 : PlainStr rh) (h2 : PlainStr lh) (h3 : PlainStr rk) (h4 : PlainStr lk)
    (hv1 : pyIntOfStr rh = some nrh) (hv2 : pyIntOfStr lh = some nlh)
    (hv3 : pyIntOfStr rk = some nrk) (hv4 : pyIntOfStr lk = some nlk) :
    stiffRow (encodeStiffness parts rh lh rk lk) = Except.ok (nrh, nlh, nrk, nlk) := by
  unfold stiffRow
  rw [parseJson_encode parts rh lh rk lk hp h1 h2 h3 h4]
  simp only [stiffJson, asDict, dictGetD, bind, Except.bind]
  simp only [show (("parts" : String) = "strength") = False from by simp,
    show (("strength" : String) = "strength") = True from by simp]
  simp only [if_true, if_false]
  simp [dictGetD, pyInt, hv1, hv2, hv3, hv4]

theorem stiffnessPartIds_plain : ∀ p ∈ stiffnessPartIds, PlainStr p := by decide

/-- C6: for valid form inputs (part tokens from the fixed taxonomy and
integer strings for the four region strengths), encoding the stiffness
structure with `json.dumps` and decoding the stored text round-trips: the
text parses back to exactly the structure that was built (same parts list,
hence the same set), and the report decode recovers every region strength as
the integer value of the submitted string. -/
theorem C6_roundtrip (parts : List String) (rh lh rk lk : String)
    (nrh nlh nrk nlk : Int) (hparts : ∀ p ∈ parts, p ∈ stiffnessPartIds)
    (hrh : PlainStr rh) (hlh : PlainStr lh) (hrk : PlainStr rk) (hlk : PlainStr lk)
    (hv1 : pyIntOfStr rh = some nrh) (hv2 : pyIntOfStr lh = some nlh)
    (hv3 : pyIntOfStr rk = some nrk) (hv4 : pyIntOfStr lk = some nlk) :
    parseJson (encodeStiffness parts rh lh rk lk) = some (stiffJson parts rh lh rk lk) ∧
    stiffRow (encodeStiffness parts rh lh rk lk) = Except.ok (nrh, nlh, nrk, nlk) := by
  have hp : ∀ p ∈ parts, PlainStr p :=
    fun p hmem => stiffnessPartIds_plain p (hparts p hmem)
  exact ⟨parseJson_encode parts rh lh rk lk hp hrh hlh hrk hlk,
         stiffRow_encode parts rh lh rk lk nrh nlh nrk nlk hp hrh hlh hrk hlk hv1 hv2 hv3 hv4⟩

theorem C6_witness :
    parseJson (encodeStiffness ["R_Index"] "3" "0" "0" "0") =
      some (stiffJson ["R_Index"] "3" "0" "0" "0") ∧
    stiffRow (encodeStiffness ["R_Index"] "3" "0" "0" "0") = Except.ok (3, 0, 0, 0) :=
  C6_roundtrip ["R_Index"] "3" "0" "0" "0" 3 0 0 0 (by decide) (by decide) (by decide)
    (by decide) (by decide) rfl rfl rfl rfl
